import Mathlib

/-!
Winthorpe speech-recognition backends: the fake backend and the Sphinx plugin.

A shallow embedding of `src/plugins/fake-speech-engine/fake.c` and of the
decoder operations and the utterance handler of
`src/plugins/speech-to-text/sphinx/sphinx-plugin.c`.

Conventions of the embedding.

* C `int` truth values `TRUE`/`FALSE` are `Bool`.
* `uint32_t` values are natural numbers reduced modulo `2 ^ 32`.
* A `double` written as a decimal literal in the source is the rational number
  with that decimal expansion.
* A pointer that may be `NULL` is an `Option`.
* The Murphy main loop is represented by the list of timers it holds for the
  fake backend (every timer the backend adds has `push_token_cb` as callback and
  the backend as user data).  Whether a call of `mrp_add_timer` succeeds is an
  input of the model (`ok`).
* The recognition notification callback is outside the repository's backend
  code.  A call of it is recorded in a log, and what the callback does with the
  backend is an input of the model: the list of backend API calls it makes.
-/

namespace Fake

/-! ## Data model -/

/-- One entry of the script, `fake_token_t`: the token text (`NULL` for the
end-of-script entry) and the time in seconds till the next token. -/
structure fake_token_t where
  token : Option String
  next : ℚ
deriving DecidableEq, Repr

/-- The static array `tokens[]` of `fake.c`. -/
def tokens : List fake_token_t :=
  [ ⟨some "hal", 1⟩,
    ⟨some "open", 1 / 2⟩,
    ⟨some "the", 3 / 10⟩,
    ⟨some "pod", 1 / 5⟩,
    ⟨some "bay", 1 / 2⟩,
    ⟨some "doors", 1⟩,
    ⟨none, 0⟩ ]

/-- The token record that `push_token_cb` fills in (`tok`): text, score, start
and end offset, flush flag. -/
structure srs_srec_token_t where
  token : String
  score : ℚ
  start : Nat
  end_ : Nat
  flush : Bool
deriving DecidableEq, Repr

/-- A timer of the main loop: its identity and its interval in milliseconds. -/
structure mrp_timer_t where
  id : Nat
  msecs : Nat
deriving DecidableEq, Repr

/-- The main loop, as far as the fake backend uses it: the timers it holds and
the identity the next added timer gets. -/
structure mrp_mainloop_t where
  timers : List mrp_timer_t
  next_id : Nat
deriving DecidableEq, Repr

/-- The backend record `fake_t`.  `notify` and `notify_data` identify the
notification target, `tokens` is `[]` while the pointer is `NULL`. -/
structure fake_t where
  notify : Nat
  notify_data : Nat
  active : Bool
  tokens : List fake_token_t
  tokidx : Nat
  toktmr : Option mrp_timer_t
deriving DecidableEq, Repr

/-- One invocation of the notification callback: the token array passed, the
token count passed and the callback with its data. -/
structure Notification where
  toks : List srs_srec_token_t
  ntoken : Nat
  notify : Nat
  notify_data : Nat
deriving DecidableEq, Repr

/-- The backend together with its main loop and the log of the notification
callback's invocations. -/
structure Sys where
  fake : fake_t
  ml : mrp_mainloop_t
  log : List Notification
deriving DecidableEq, Repr

/-- A call of the backend API (`srs_srec_api_t`), with what the environment
decides for it: `ok` whether `mrp_add_timer` succeeds.  A `sampledup` call is
one whose allocation succeeds. -/
inductive Call where
  | activate (ok : Bool)
  | deactivate
  | flush (start end_ : Nat)
  | rescan (start end_ : Nat)
  | sampledup (start end_ : Nat)
deriving DecidableEq, Repr

/-- A step of the system: an API call, or the main loop firing the timer `t`,
where `ok` says whether the re-arming `mrp_add_timer` succeeds and `cb` lists
the API calls the notification callback makes. -/
inductive Action where
  | call (c : Call)
  | fire (t : mrp_timer_t) (ok : Bool) (cb : List Call)
deriving DecidableEq, Repr

/-! ## Main loop timers -/

/-- Conversion to `uint32_t`. -/
def to_uint32 (x : Int) : Nat := (x % 2 ^ 32).toNat

/-- The value `SRS_SREC_FLUSH_ALL` of `recognizer.h`. -/
def SRS_SREC_FLUSH_ALL : Int := -1

/-- The function `mrp_add_timer`: on success a new timer is held by the loop,
on failure the loop is unchanged and the result is `NULL`. -/
def mrp_add_timer (ml : mrp_mainloop_t) (msecs : Nat) (ok : Bool) :
    mrp_mainloop_t × Option mrp_timer_t :=
  if ok then
    (⟨ml.timers ++ [⟨ml.next_id, msecs⟩], ml.next_id + 1⟩, some ⟨ml.next_id, msecs⟩)
  else
    (ml, none)

/-- The function `mrp_del_timer`: the timer is no longer held by the loop;
deleting `NULL` does nothing. -/
def mrp_del_timer (ml : mrp_mainloop_t) : Option mrp_timer_t → mrp_mainloop_t
  | none => ml
  | some t => ⟨ml.timers.filter (fun u => decide (u.id ≠ t.id)), ml.next_id⟩

/-! ## The backend operations of `fake.c` -/

/-- The conversion `(unsigned int)(1000 * delay)`. -/
def delay_msecs (delay : ℚ) : Nat := ⌊1000 * delay⌋₊ % 2 ^ 32

/-- The function `arm_token_timer`. -/
def arm_token_timer (ok : Bool) (delay : ℚ) (s : Sys) : Bool × Sys :=
  let msecs := delay_msecs delay
  let ml1 := mrp_del_timer s.ml s.fake.toktmr
  let r := mrp_add_timer ml1 msecs ok
  (r.2.isSome, { s with fake := { s.fake with toktmr := r.2 }, ml := r.1 })

/-- The function `fake_activate`.  After `fake->tokens = tokens` the delay
read as `fake->tokens->next` is that of the first entry of the script. -/
def fake_activate (ok : Bool) (s : Sys) : Bool × Sys :=
  if s.fake.active then
    (true, s)
  else
    let s1 : Sys := { s with fake := { s.fake with tokens := tokens, tokidx := 0 } }
    let r := arm_token_timer ok (tokens.head (by simp [tokens])).next s1
    if r.1 then
      (true, { r.2 with fake := { r.2.fake with active := true } })
    else
      (false, r.2)

/-- The function `fake_deactivate`. -/
def fake_deactivate (s : Sys) : Sys :=
  if s.fake.active then
    { s with
      ml := mrp_del_timer s.ml s.fake.toktmr
      fake := { s.fake with toktmr := none, active := false } }
  else
    s

/-- The function `fake_flush`. -/
def fake_flush (_start _end : Nat) (s : Sys) : Bool × Sys := (true, s)

/-- The function `fake_rescan`. -/
def fake_rescan (_start _end : Nat) (s : Sys) : Bool × Sys := (true, s)

/-- The function `mrp_allocz` for an array of `n` words of 32 bits: zeroed
memory, or `NULL`. -/
def mrp_allocz (alloc : Bool) (n : Nat) : Option (List Nat) :=
  if alloc then some (List.replicate n 0) else none

/-- The function `fake_sampledup`.  The result is the buffer returned and the
backend afterwards; with `buf = NULL` the stores `buf[0]`, `buf[1]` have no
defined result, which is `none`. -/
def fake_sampledup (alloc : Bool) (start end_ : Nat) (s : Sys) : Option (List Nat × Sys) :=
  match mrp_allocz alloc 2 with
  | none => none
  | some buf => some ((buf.set 0 (start % 2 ^ 32)).set 1 (end_ % 2 ^ 32), s)

/-- The effect of one API call on the system; the value returned is dropped. -/
def do_call (s : Sys) : Call → Sys
  | .activate ok => (fake_activate ok s).2
  | .deactivate => fake_deactivate s
  | .flush a b => (fake_flush a b s).2
  | .rescan a b => (fake_rescan a b s).2
  | .sampledup a b => ((fake_sampledup true a b s).map Prod.snd).getD s

/-- A sequence of API calls, in order. -/
def do_calls (s : Sys) (cs : List Call) : Sys := cs.foldl do_call s

/-- The call `fake->notify(&tok, 1, fake->notify_data)`: the invocation is
logged, then the callback makes its API calls `cb`. -/
def notify (toks : List srs_srec_token_t) (ntoken : Nat) (cb : List Call) (s : Sys) : Sys :=
  do_calls { s with log := s.log ++ [⟨toks, ntoken, s.fake.notify, s.fake.notify_data⟩] } cb

/-- The function `push_token_cb`, the timer callback.  Reading
`fake->tokens + fake->tokidx` outside the script array has no defined result,
which is `none`. -/
def push_token_cb (t : mrp_timer_t) (ok : Bool) (cb : List Call) (s : Sys) : Option Sys :=
  match s.fake.tokens.get? s.fake.tokidx with
  | none => none
  | some token =>
    let idx := s.fake.tokidx
    let s1 : Sys := { s with fake := { s.fake with tokidx := idx + 1 } }
    let s2 : Sys :=
      { s1 with ml := mrp_del_timer s1.ml (some t), fake := { s1.fake with toktmr := none } }
    match token.token with
    | none => some { s2 with fake := { s2.fake with tokidx := 0 } }
    | some text =>
      let s3 := (arm_token_timer ok token.next s2).2
      let start := to_uint32 idx
      let tok : srs_srec_token_t :=
        { token := text, score := 1, start := start, end_ := (start + 1) % 2 ^ 32,
          flush := false }
      some (notify [tok] 1 cb s3)

/-! ## The step relation -/

/-- The backend as `create_fake` leaves it: zeroed by `mrp_allocz`, with the
notification target registered, and no timer in the main loop. -/
def init (notify notify_data : Nat) : Sys :=
  { fake := { notify := notify, notify_data := notify_data, active := false,
              tokens := [], tokidx := 0, toktmr := none }
    ml := { timers := [], next_id := 0 }
    log := [] }

/-- One step: an API call always runs; a timer fires only while the main loop
holds it. -/
def step (s : Sys) : Action → Option Sys
  | .call c => some (do_call s c)
  | .fire t ok cb => if t ∈ s.ml.timers then push_token_cb t ok cb s else none

/-- The states reachable from the initial state. -/
inductive Reachable : Sys → Prop
  | init (n d : Nat) : Reachable (init n d)
  | step {s s1 : Sys} (a : Action) : Reachable s → step s a = some s1 → Reachable s1

/-- A step that is not enabled leaves the system as it is. -/
def exec (s : Sys) (a : Action) : Sys := (step s a).getD s

/-- A sequence of steps, each run if enabled. -/
def execs (s : Sys) (as : List Action) : Sys := as.foldl exec s

/-- The main loop running on its own: while it holds a timer it fires the
first one, every `mrp_add_timer` succeeding and the notification callback
making no API call.  `fuel` bounds the number of timers fired. -/
def run_loop : Nat → Sys → Option Sys
  | 0, s => some s
  | fuel + 1, s =>
    match s.ml.timers with
    | [] => some s
    | t :: _ => (push_token_cb t true [] s).bind (run_loop fuel)

/-! ## The invariant of the reachable states -/

/-- The main loop holds exactly the timer the backend points to, and while a
timer is held the backend is active, reads the script and has its cursor
inside it. -/
structure Inv (s : Sys) : Prop where
  timers : s.ml.timers = s.fake.toktmr.toList
  armed : ∀ t, s.fake.toktmr = some t →
    s.fake.active = true ∧ s.fake.tokens = tokens ∧ s.fake.tokidx ≤ 6

/-! ## Concrete states used as examples -/

/-- The backend after a successful `fake_activate` from the initial state. -/
def armed0 : Sys := (fake_activate true (init 0 0)).2

/-- The backend after activation and one firing of the timer, which delivers
the token `hal`. -/
def after_hal : Sys := (run_loop 1 armed0).getD armed0

/-- The backend after activation and one firing of the timer whose
notification callback calls `fake_deactivate`. -/
def deactivated_in_callback : Sys := exec armed0 (.fire ⟨0, 1000⟩ true [.deactivate])

/-- The backend after activation and six firings of the timer: the six tokens
are delivered and the cursor is at the end-of-script entry. -/
def before_end : Sys := (run_loop 6 armed0).getD armed0

/-- The backend after activation and seven firings of the timer: the six
tokens are delivered and the end of the script is reached. -/
def exhausted : Sys := (run_loop 7 armed0).getD armed0

end Fake

namespace Sphinx

/-! ## The decoder operations and the utterance handler of `sphinx-plugin.c` -/

/-- Modelled from the spec: the decoder set (`decoder-set.h`, `decoder-set.c`
are not among the sources).  The spec gives the collaborator three operations,
`contains(decoder_name) → bool`, `select(decoder_name) → ok|fail` and
`current_name() → string`, selection failing for a decoder that is unavailable
and a failed selection leaving the previously active decoder selected.  The set
is the list of the names of its decoders and the name of the current one. -/
structure decoder_set_t where
  decs : List String
  curdec : String
deriving DecidableEq, Repr

/-- A speech token of `recognizer.h`, `srs_srec_token_t`. -/
structure srs_srec_token_t where
  token : String
  score : ℚ
  start : Nat
  end_ : Nat
deriving DecidableEq, Repr

/-- A candidate of `recognizer.h`, `srs_srec_candidate_t`: its score and its
tokens (`ntoken` is the length of the list). -/
structure srs_srec_candidate_t where
  score : ℚ
  tokens : List srs_srec_token_t
deriving DecidableEq, Repr

/-- An utterance of `recognizer.h`, `srs_srec_utterance_s`: backend id, score,
length in the audio buffer and candidates (`ncand` is the length of the list). -/
structure srs_srec_utterance_t where
  id : String
  score : ℚ
  length : Nat
  cands : List srs_srec_candidate_t
deriving DecidableEq, Repr

/-- The type `srs_srec_notify_t` of `recognizer.h`: a notification callback
takes the utterance and the notification data and returns an `int`. -/
abbrev srs_srec_notify_t : Type := srs_srec_utterance_t → Nat → Int

/-- The record `plugin_s` of `sphinx-plugin.c`, without `self`: the
notification callback (`NULL` when none is set) and its data. -/
structure plugin_t where
  callback : Option srs_srec_notify_t
  data : Nat

/-- The part of `context_t` the decoder operations and the utterance handler
use: the decoder set and the plugin pointer. -/
structure context_t where
  decset : decoder_set_t
  plugin : Option plugin_t

/-- Modelled from the spec: `decoder_set_contains`, the collaborator's
`contains(decoder_name) → bool`. -/
def decoder_set_contains (ctx : context_t) (decoder : String) : Bool :=
  decide (decoder ∈ ctx.decset.decs)

/-- Modelled from the spec: `decoder_set_use`, the collaborator's
`select(decoder_name) → ok|fail`: `0` and the decoder becomes the current one,
or a negative value and nothing changes when the decoder is unavailable. -/
def decoder_set_use (ctx : context_t) (decoder : String) : Int × context_t :=
  if decoder_set_contains ctx decoder then
    (0, { ctx with decset := { ctx.decset with curdec := decoder } })
  else
    (-1, ctx)

/-- Modelled from the spec: `decoder_set_name`, the collaborator's
`current_name() → string`. -/
def decoder_set_name (ctx : context_t) : String := ctx.decset.curdec

/-- The function `check_decoder`. -/
def check_decoder (decoder : String) (ctx : context_t) : Bool :=
  let available := decoder_set_contains ctx decoder
  available

/-- The function `select_decoder`. -/
def select_decoder (decoder : String) (ctx : context_t) : Bool × context_t :=
  let r := decoder_set_use ctx decoder
  if r.1 < 0 then (false, r.2) else (true, r.2)

/-- The function `active_decoder`. -/
def active_decoder (ctx : context_t) : String :=
  let decoder := decoder_set_name ctx
  decoder

/-- The function `plugin_utterance_handler`.  The result is the length
returned together with the invocations of the notification callback it made,
each with the utterance and the data passed.  The callback returns an `int`,
which has the width of the `int32_t` it is assigned to. -/
def plugin_utterance_handler (ctx : context_t) (utt : srs_srec_utterance_t) :
    Int × List (srs_srec_utterance_t × Nat) :=
  match ctx.plugin with
  | none => (-1, [])
  | some pl =>
    match pl.callback with
    | none => (-1, [])
    | some notify => (notify utt pl.data, [(utt, pl.data)])

/-- A context whose plugin has a callback registered: it returns the length of
the utterance it is given plus its notification data. -/
def ctx_registered : context_t :=
  ⟨⟨["default"], "default"⟩, some ⟨some (fun utt data => utt.length + data), 5⟩⟩

/-- A context whose plugin has no callback registered. -/
def ctx_no_callback : context_t := ⟨⟨["default"], "default"⟩, some ⟨none, 5⟩⟩

/-- An utterance with one candidate of one token. -/
def utt_hello : srs_srec_utterance_t := ⟨"utt0", 1, 16000, [⟨1, [⟨"hello", 1, 0, 16000⟩]⟩]⟩

end Sphinx


namespace Fake

/-! ## Basic facts about the operations -/

theorem delay_msecs_tokens :
    tokens.map (fun e => delay_msecs e.next) = [1000, 500, 300, 200, 500, 1000, 0] := by
  norm_num [tokens, delay_msecs]

theorem fake_sampledup_snd (a b : Nat) (s : Sys) :
    ((fake_sampledup true a b s).map Prod.snd).getD s = s := by
  simp [fake_sampledup, mrp_allocz]

theorem fake_activate_log (ok : Bool) (s : Sys) : (fake_activate ok s).2.log = s.log := by
  unfold fake_activate arm_token_timer
  split
  · rfl
  · cases ok <;> simp [mrp_add_timer]

theorem fake_deactivate_log (s : Sys) : (fake_deactivate s).log = s.log := by
  unfold fake_deactivate
  split <;> rfl

theorem do_call_log (s : Sys) (c : Call) : (do_call s c).log = s.log := by
  cases c with
  | activate ok => exact fake_activate_log ok s
  | deactivate => exact fake_deactivate_log s
  | flush a b => rfl
  | rescan a b => rfl
  | sampledup a b => simp [do_call, fake_sampledup_snd]

theorem do_calls_nil (s : Sys) : do_calls s [] = s := rfl

theorem do_calls_cons (s : Sys) (c : Call) (cs : List Call) :
    do_calls s (c :: cs) = do_calls (do_call s c) cs := rfl

theorem do_calls_append (s : Sys) (cs ds : List Call) :
    do_calls s (cs ++ ds) = do_calls (do_calls s cs) ds := by
  simp [do_calls, List.foldl_append]

theorem do_calls_log (s : Sys) (cs : List Call) : (do_calls s cs).log = s.log := by
  induction cs generalizing s with
  | nil => rfl
  | cons c cs ih => rw [do_calls_cons, ih, do_call_log]

/-! ## The invariant holds in every reachable state -/

theorem Inv_init (n d : Nat) : Inv (init n d) :=
  ⟨rfl, fun t h => by simp [init] at h⟩

theorem Inv_fake_activate (ok : Bool) (s : Sys) (h : Inv s) : Inv (fake_activate ok s).2 := by
  unfold fake_activate
  by_cases ha : s.fake.active = true
  · simpa [ha] using h
  · have hn : s.fake.toktmr = none := by
      cases ht : s.fake.toktmr with
      | none => rfl
      | some t => exact absurd (h.armed t ht).1 ha
    have hl : s.ml.timers = [] := by rw [h.timers, hn]; rfl
    cases ok
    · constructor
      · simp [ha, arm_token_timer, mrp_add_timer, mrp_del_timer, hn, hl]
      · intro t ht
        simp [ha, arm_token_timer, mrp_add_timer, mrp_del_timer, hn] at ht
    · constructor
      · simp [ha, arm_token_timer, mrp_add_timer, mrp_del_timer, hn, hl]
      · intro t _
        simp [ha, arm_token_timer, mrp_add_timer, mrp_del_timer, hn]

theorem Inv_fake_deactivate (s : Sys) (h : Inv s) : Inv (fake_deactivate s) := by
  unfold fake_deactivate
  by_cases ha : s.fake.active = true
  · constructor
    · cases ht : s.fake.toktmr with
      | none => simpa [ha, mrp_del_timer, ht] using h.timers
      | some t =>
        have hl := h.timers
        rw [ht] at hl
        simp [ha, mrp_del_timer, ht, hl]
    · intro t ht
      simp [ha] at ht
  · simpa [ha] using h

theorem Inv_do_call (s : Sys) (c : Call) (h : Inv s) : Inv (do_call s c) := by
  cases c with
  | activate ok => exact Inv_fake_activate ok s h
  | deactivate => exact Inv_fake_deactivate s h
  | flush a b => exact h
  | rescan a b => exact h
  | sampledup a b => simpa [do_call, fake_sampledup_snd] using h

theorem Inv_do_calls (s : Sys) (cs : List Call) (h : Inv s) : Inv (do_calls s cs) := by
  induction cs generalizing s with
  | nil => exact h
  | cons c cs ih => exact ih _ (Inv_do_call s c h)

theorem toktmr_of_mem {s : Sys} (h : Inv s) {t : mrp_timer_t} (ht : t ∈ s.ml.timers) :
    s.fake.toktmr = some t := by
  rw [h.timers] at ht
  simpa using ht

/-- What one firing of the timer does in a state satisfying the invariant:
at the end-of-script entry nothing is delivered and the callback is not run;
at a token the callback is run in a state `s3` that satisfies the invariant
and whose log has the token appended. -/
theorem push_token_cb_cases (s : Sys) (h : Inv s) (t : mrp_timer_t) (ht : t ∈ s.ml.timers)
    (ok : Bool) :
    (s.fake.tokidx = 6 ∧ ∃ s1, (∀ cb, push_token_cb t ok cb s = some s1) ∧ Inv s1 ∧
        s1.log = s.log ∧ s1.fake.tokidx = 0 ∧ s1.ml.timers = [] ∧
        s1.fake.active = true) ∨
    (s.fake.tokidx < 6 ∧ ∃ s3 text, (∀ cb, push_token_cb t ok cb s = some (do_calls s3 cb)) ∧
        Inv s3 ∧
        (tokens.get? s.fake.tokidx).bind (fun e => e.token) = some text ∧
        s3.log = s.log ++ [⟨[⟨text, 1, s.fake.tokidx, s.fake.tokidx + 1, false⟩], 1,
          s.fake.notify, s.fake.notify_data⟩] ∧
        s3.fake.active = true ∧ s3.fake.tokidx = s.fake.tokidx + 1) := by
  have htm := toktmr_of_mem h ht
  obtain ⟨hact, htok, hidx⟩ := h.armed t htm
  have hl : s.ml.timers = [t] := by rw [h.timers, htm]; rfl
  obtain ⟨⟨n, d, act, toks, idx, tmr⟩, ⟨tl, nid⟩, log⟩ := s
  simp only at htm hact htok hidx hl
  subst htm hact htok hl
  rcases Nat.lt_or_ge idx 6 with hlt | hge
  · right
    refine ⟨hlt, ?_⟩
    cases ok <;> interval_cases idx <;>
      refine ⟨_, _, fun cb => rfl, ?_, rfl, ?_, rfl, rfl⟩ <;> first | (simp [to_uint32]; done) | (constructor <;> simp [arm_token_timer, mrp_add_timer, mrp_del_timer, tokens])
  · left
    have : idx = 6 := by omega
    subst this
    refine ⟨rfl, _, fun cb => rfl, ?_, rfl, rfl, ?_, rfl⟩
    · constructor
      · simp [mrp_del_timer]
      · intro u hu
        simp at hu
    · simp [mrp_del_timer]

theorem Inv_push_token_cb (s s1 : Sys) (h : Inv s) (t : mrp_timer_t) (ht : t ∈ s.ml.timers)
    (ok : Bool) (cb : List Call) (hs : push_token_cb t ok cb s = some s1) : Inv s1 := by
  rcases push_token_cb_cases s h t ht ok with ⟨_, s2, h2, hI, _⟩ | ⟨_, s3, _, h3, hI, _⟩
  · rw [h2 cb] at hs
    cases hs
    exact hI
  · rw [h3 cb] at hs
    cases hs
    exact Inv_do_calls s3 cb hI

theorem Inv_step (s s1 : Sys) (a : Action) (h : Inv s) (hs : step s a = some s1) : Inv s1 := by
  cases a with
  | call c =>
    simp only [step, Option.some.injEq] at hs
    subst hs
    exact Inv_do_call s c h
  | fire t ok cb =>
    by_cases ht : t ∈ s.ml.timers
    · simp only [step, ht, if_true] at hs
      exact Inv_push_token_cb s s1 h t ht ok cb hs
    · simp [step, ht] at hs

theorem Inv_of_Reachable {s : Sys} (h : Reachable s) : Inv s := by
  induction h with
  | init n d => exact Inv_init n d
  | step a _ hs ih => exact Inv_step _ _ a ih hs

/-- In a state satisfying the invariant an inactive backend has no timer. -/
theorem no_timer_of_inactive {s : Sys} (h : Inv s) (ha : s.fake.active = false) :
    s.fake.toktmr = none ∧ s.ml.timers = [] := by
  have hn : s.fake.toktmr = none := by
    cases ht : s.fake.toktmr with
    | none => rfl
    | some t =>
      have := (h.armed t ht).1
      rw [ha] at this
      cases this
  exact ⟨hn, by rw [h.timers, hn]; rfl⟩

theorem fake_deactivate_active (s : Sys) : (fake_deactivate s).fake.active = false := by
  unfold fake_deactivate
  by_cases ha : s.fake.active = true
  · simp [ha]
  · simp [ha]

theorem Reachable_do_call {s : Sys} (h : Reachable s) (c : Call) : Reachable (do_call s c) :=
  Reachable.step (.call c) h rfl

theorem Reachable_exec {s : Sys} (h : Reachable s) (a : Action) : Reachable (exec s a) := by
  unfold exec
  cases hs : step s a with
  | none => exact h
  | some s1 => exact Reachable.step a h hs

theorem Reachable_execs {s : Sys} (h : Reachable s) (as : List Action) :
    Reachable (execs s as) := by
  induction as generalizing s with
  | nil => exact h
  | cons a as ih => exact ih (Reachable_exec h a)

theorem Reachable_armed0 : Reachable armed0 :=
  Reachable_do_call (Reachable.init 0 0) (.activate true)

theorem Reachable_run_loop (fuel : Nat) {s s1 : Sys} (h : Reachable s)
    (hs : run_loop fuel s = some s1) : Reachable s1 := by
  induction fuel generalizing s with
  | zero =>
    simp only [run_loop, Option.some.injEq] at hs
    exact hs ▸ h
  | succ k ih =>
    cases hl : s.ml.timers with
    | nil =>
      simp only [run_loop, hl, Option.some.injEq] at hs
      exact hs ▸ h
    | cons t ts =>
      simp only [run_loop, hl] at hs
      cases hp : push_token_cb t true [] s with
      | none => simp [hp] at hs
      | some s2 =>
        rw [hp] at hs
        have hstep : step s (.fire t true []) = some s2 := by
          simp [step, hl, hp]
        exact ih (Reachable.step _ h hstep) hs

theorem Reachable_run_loop_getD (fuel : Nat) {s : Sys} (h : Reachable s) :
    Reachable ((run_loop fuel s).getD s) := by
  cases hs : run_loop fuel s with
  | none => exact h
  | some s1 => exact Reachable_run_loop fuel h hs

theorem Reachable_after_hal : Reachable after_hal :=
  Reachable_run_loop_getD 1 Reachable_armed0

theorem Reachable_before_end : Reachable before_end :=
  Reachable_run_loop_getD 6 Reachable_armed0

theorem Reachable_exhausted : Reachable exhausted :=
  Reachable_run_loop_getD 7 Reachable_armed0

theorem run_loop_idle (fuel : Nat) (s : Sys) (h : s.ml.timers = []) :
    run_loop fuel s = some s := by
  cases fuel with
  | zero => rfl
  | succ k => simp [run_loop, h]

theorem run_loop_add (m k : Nat) (s : Sys) :
    run_loop (m + k) s = (run_loop m s).bind (run_loop k) := by
  induction m generalizing s with
  | zero => simp [run_loop]
  | succ m ih =>
    rw [Nat.succ_add]
    cases hl : s.ml.timers with
    | nil => simp [run_loop, hl, run_loop_idle k s hl]
    | cons t ts =>
      simp only [run_loop, hl]
      cases push_token_cb t true [] s with
      | none => rfl
      | some s1 => simpa using ih s1

/-! ## The script is delivered once, in order -/

/-- C1: from the initial Inactive state `fake_activate` succeeds when the timer
can be scheduled, and letting the main loop fire every scheduled timer (any fuel
of at least seven firings, scheduling always succeeding, the callback making no
API call) ends with no timer held and a log of exactly six notifications, each
passing one token with count 1: hal, open, the, pod, bay, doors with
start 0, 1, 2, 3, 4, 5 and end = start + 1.  Hence every token has start < end
and the starts increase strictly; nothing is delivered after the sixth. -/
theorem fake_script_delivered (n d k : Nat) :
    (fake_activate true (init n d)).1 = true ∧
    ∃ s, run_loop (7 + k) (fake_activate true (init n d)).2 = some s ∧
      s.ml.timers = [] ∧
      s.log =
        [ ⟨[⟨"hal", 1, 0, 1, false⟩], 1, n, d⟩,
          ⟨[⟨"open", 1, 1, 2, false⟩], 1, n, d⟩,
          ⟨[⟨"the", 1, 2, 3, false⟩], 1, n, d⟩,
          ⟨[⟨"pod", 1, 3, 4, false⟩], 1, n, d⟩,
          ⟨[⟨"bay", 1, 4, 5, false⟩], 1, n, d⟩,
          ⟨[⟨"doors", 1, 5, 6, false⟩], 1, n, d⟩ ] ∧
      s.log.length = 6 ∧
      (∀ e ∈ s.log, e.ntoken = 1 ∧ e.toks.length = 1 ∧ ∀ tok ∈ e.toks, tok.start < tok.end_) ∧
      List.Pairwise (fun a b => a < b)
        ((s.log.map (fun e => e.toks.map (fun tok => tok.start))).flatten) := by
  refine ⟨by simp [fake_activate, init, arm_token_timer, mrp_add_timer, mrp_del_timer], ?_⟩
  rw [run_loop_add]
  have h7 : ∃ s, run_loop 7 (fake_activate true (init n d)).2 = some s ∧
      s.ml.timers = [] ∧
      s.log =
        [ ⟨[⟨"hal", 1, 0, 1, false⟩], 1, n, d⟩,
          ⟨[⟨"open", 1, 1, 2, false⟩], 1, n, d⟩,
          ⟨[⟨"the", 1, 2, 3, false⟩], 1, n, d⟩,
          ⟨[⟨"pod", 1, 3, 4, false⟩], 1, n, d⟩,
          ⟨[⟨"bay", 1, 4, 5, false⟩], 1, n, d⟩,
          ⟨[⟨"doors", 1, 5, 6, false⟩], 1, n, d⟩ ] := by
    simp [run_loop, fake_activate, init, arm_token_timer, mrp_add_timer, mrp_del_timer, tokens,
      push_token_cb, notify, do_calls, to_uint32]
  obtain ⟨s, hs, ht, hl⟩ := h7
  refine ⟨s, ?_, ht, hl, ?_, ?_, ?_⟩
  · rw [hs]
    exact run_loop_idle k s ht
  · rw [hl]
    rfl
  · rw [hl]
    simp
  · rw [hl]
    simp

/-! ## Activation and deactivation -/

theorem fake_deactivate_notify (s : Sys) :
    (fake_deactivate s).fake.notify = s.fake.notify ∧
    (fake_deactivate s).fake.notify_data = s.fake.notify_data := by
  unfold fake_deactivate
  split <;> exact ⟨rfl, rfl⟩

/-- Activating an inactive backend (in a state satisfying the invariant) with
the timer scheduled puts the cursor at 0 with one timer held, whose firing
delivers the token hal with start 0 and end 1. -/
theorem fake_activate_restarts (u : Sys) (hI : Inv u) (ha : u.fake.active = false) :
    (fake_activate true u).1 = true ∧
    (fake_activate true u).2.fake.tokidx = 0 ∧
    (fake_activate true u).2.fake.active = true ∧
    ∃ t, (fake_activate true u).2.ml.timers = [t] ∧
      ∀ ok cb, ∃ s1, step (fake_activate true u).2 (.fire t ok cb) = some s1 ∧
        s1.log = u.log ++ [⟨[⟨"hal", 1, 0, 1, false⟩], 1, u.fake.notify, u.fake.notify_data⟩] := by
  obtain ⟨hn, hl⟩ := no_timer_of_inactive hI ha
  obtain ⟨⟨n, d, act, toks, idx, tmr⟩, ⟨tl, nid⟩, log⟩ := u
  simp only at ha hn hl
  subst ha hn hl
  refine ⟨rfl, rfl, rfl, _, rfl, ?_⟩
  intro ok cb
  cases ok <;>
    simp [step, fake_activate, arm_token_timer, mrp_add_timer, mrp_del_timer,
      tokens, push_token_cb, notify, do_calls_log, to_uint32]

/-- C2: in every reachable state in which the backend is active, whatever the
token cursor is, `fake_deactivate` followed by `fake_activate` with the timer
scheduled leaves the backend active with the cursor at index 0 and exactly one
timer held, and the next firing of that timer delivers one notification, the
token hal with start 0 and end 1. -/
theorem fake_reactivate_restarts (s : Sys) (hr : Reachable s) (_ha : s.fake.active = true) :
    (fake_activate true (fake_deactivate s)).1 = true ∧
    (fake_activate true (fake_deactivate s)).2.fake.tokidx = 0 ∧
    (fake_activate true (fake_deactivate s)).2.fake.active = true ∧
    ∃ t, (fake_activate true (fake_deactivate s)).2.ml.timers = [t] ∧
      ∀ ok cb, ∃ s1, step (fake_activate true (fake_deactivate s)).2 (.fire t ok cb) = some s1 ∧
        s1.log = s.log ++ [⟨[⟨"hal", 1, 0, 1, false⟩], 1, s.fake.notify, s.fake.notify_data⟩] := by
  have h := fake_activate_restarts (fake_deactivate s)
    (Inv_fake_deactivate s (Inv_of_Reachable hr)) (fake_deactivate_active s)
  rw [fake_deactivate_log, (fake_deactivate_notify s).1, (fake_deactivate_notify s).2] at h
  exact h

theorem fake_reactivate_restarts_witness :
    Reachable after_hal ∧ after_hal.fake.active = true ∧ after_hal.fake.tokidx = 1 ∧
    after_hal.log.map (fun e => e.toks.map (fun tok => tok.token)) = [["hal"]] ∧
    (fake_activate true (fake_deactivate after_hal)).2.fake.tokidx = 0 :=
  ⟨Reachable_after_hal, by decide, by decide, by decide,
    (fake_reactivate_restarts after_hal Reachable_after_hal (by decide)).2.1⟩

/-- C3: `fake_activate` on a backend whose active flag is set returns success
and leaves the whole state as it is: the cursor, the timer pointer, the timers
held by the main loop and the log.  Hence whenever a first `fake_activate`
returns success, a second one returns success and changes nothing. -/
theorem fake_activate_idempotent (s : Sys) (ok1 ok2 : Bool) :
    (s.fake.active = true → fake_activate ok1 s = (true, s)) ∧
    ((fake_activate ok1 s).1 = true →
      fake_activate ok2 (fake_activate ok1 s).2 = (true, (fake_activate ok1 s).2)) := by
  have h1 : ∀ (u : Sys) (ok : Bool), u.fake.active = true → fake_activate ok u = (true, u) := by
    intro u ok hu
    simp [fake_activate, hu]
  refine ⟨h1 s ok1, fun hret => h1 _ ok2 ?_⟩
  by_cases ha : s.fake.active = true
  · rw [h1 s ok1 ha]
    exact ha
  · cases ok1
    · simp [fake_activate, ha, arm_token_timer, mrp_add_timer] at hret
    · simp [fake_activate, ha, arm_token_timer, mrp_add_timer]

theorem fake_activate_idempotent_witness :
    after_hal.fake.active = true ∧ fake_activate false after_hal = (true, after_hal) ∧
    (fake_activate true (init 0 0)).1 = true ∧
    fake_activate true (fake_activate true (init 0 0)).2 =
      (true, (fake_activate true (init 0 0)).2) :=
  ⟨by decide, (fake_activate_idempotent after_hal false true).1 (by decide), by decide,
    (fake_activate_idempotent (init 0 0) true true).2 (by decide)⟩

/-- C4: on a reachable backend whose active flag is clear `fake_activate`
returns failure exactly when scheduling the timer fails.  On failure the flag
stays clear, no timer is held, so no firing is enabled, and the log is as
before; on success the flag is set and exactly one timer is held, the one the
backend points to. -/
theorem fake_activate_result (s : Sys) (hr : Reachable s) (hi : s.fake.active = false)
    (ok : Bool) :
    (fake_activate ok s).1 = ok ∧
    (fake_activate ok s).2.log = s.log ∧
    (ok = false →
      (fake_activate ok s).2.fake.active = false ∧
      (fake_activate ok s).2.fake.toktmr = none ∧
      (fake_activate ok s).2.ml.timers = [] ∧
      ∀ t ok1 cb, step (fake_activate ok s).2 (.fire t ok1 cb) = none) ∧
    (ok = true →
      (fake_activate ok s).2.fake.active = true ∧
      ∃ t, (fake_activate ok s).2.fake.toktmr = some t ∧
        (fake_activate ok s).2.ml.timers = [t]) := by
  obtain ⟨hn, hl⟩ := no_timer_of_inactive (Inv_of_Reachable hr) hi
  refine ⟨?_, fake_activate_log ok s, ?_, ?_⟩
  · cases ok <;> simp [fake_activate, hi, arm_token_timer, mrp_add_timer]
  · intro hok
    subst hok
    have ht : (fake_activate false s).2.ml.timers = [] := by
      simp [fake_activate, hi, arm_token_timer, mrp_add_timer, mrp_del_timer, hn, hl]
    refine ⟨?_, ?_, ht, ?_⟩
    · simp [fake_activate, hi, arm_token_timer, mrp_add_timer]
    · simp [fake_activate, hi, arm_token_timer, mrp_add_timer]
    · intro t ok1 cb
      simp [step, ht]
  · intro hok
    subst hok
    refine ⟨?_, ⟨s.ml.next_id, delay_msecs 1⟩, ?_, ?_⟩
    · simp [fake_activate, hi, arm_token_timer, mrp_add_timer]
    · simp [fake_activate, hi, arm_token_timer, mrp_add_timer, mrp_del_timer, hn, tokens]
    · simp [fake_activate, hi, arm_token_timer, mrp_add_timer, mrp_del_timer, hn, hl, tokens]

theorem fake_activate_result_witness :
    Reachable (init 0 0) ∧ (init 0 0).fake.active = false ∧
    (fake_activate false (init 0 0)).1 = false ∧
    (fake_activate false (init 0 0)).2.ml.timers = [] :=
  ⟨Reachable.init 0 0, rfl,
    (fake_activate_result (init 0 0) (Reachable.init 0 0) rfl false).1,
    ((fake_activate_result (init 0 0) (Reachable.init 0 0) rfl false).2.2.1 rfl).2.2.1⟩

/-! ## Nothing is delivered after deactivation -/

theorem fake_activate_fail_inactive (s : Sys) (ha : s.fake.active = false) :
    (fake_activate false s).2.fake.active = false := by
  simp [fake_activate, ha, arm_token_timer, mrp_add_timer]

theorem step_fire_none_of_no_timer (s : Sys) (h : s.ml.timers = []) (t : mrp_timer_t)
    (ok : Bool) (cb : List Call) : step s (.fire t ok cb) = none := by
  simp [step, h]

/-- An inactive backend stays inactive under every API call other than a
`fake_activate` whose timer is scheduled. -/
theorem do_call_inactive (s : Sys) (ha : s.fake.active = false) (c : Call)
    (hc : c ≠ .activate true) : (do_call s c).fake.active = false := by
  cases c with
  | activate ok =>
    cases ok
    · exact fake_activate_fail_inactive s ha
    · exact absurd rfl hc
  | deactivate => exact fake_deactivate_active s
  | flush a b => exact ha
  | rescan a b => exact ha
  | sampledup a b => simpa [do_call, fake_sampledup_snd] using ha

theorem do_calls_inactive (s : Sys) (ha : s.fake.active = false) (cs : List Call)
    (hc : ∀ c ∈ cs, c ≠ .activate true) : (do_calls s cs).fake.active = false := by
  induction cs generalizing s with
  | nil => exact ha
  | cons c cs ih =>
    rw [do_calls_cons]
    exact ih _ (do_call_inactive s ha c (hc c (List.mem_cons_self c cs)))
      (fun x hx => hc x (List.mem_cons_of_mem c hx))

/-- From an inactive state satisfying the invariant, steps among which there is
no `fake_activate` with its timer scheduled deliver nothing and leave the
backend inactive with no timer held. -/
theorem execs_inactive (s : Sys) (h : Inv s) (ha : s.fake.active = false) (as : List Action)
    (hc : ∀ a ∈ as, a ≠ .call (.activate true)) :
    (execs s as).log = s.log ∧ (execs s as).fake.active = false ∧ Inv (execs s as) := by
  induction as generalizing s with
  | nil => exact ⟨rfl, ha, h⟩
  | cons a as ih =>
    have hrest : ∀ x ∈ as, x ≠ .call (.activate true) :=
      fun x hx => hc x (List.mem_cons_of_mem a hx)
    have hstep : (exec s a).log = s.log ∧ (exec s a).fake.active = false ∧ Inv (exec s a) := by
      cases a with
      | call c =>
        have hne : c ≠ .activate true := by
          intro hEq
          exact hc (.call c) (List.mem_cons_self _ as) (by rw [hEq])
        exact ⟨do_call_log s c, do_call_inactive s ha c hne, Inv_do_call s c h⟩
      | fire t ok cb =>
        have hnone := step_fire_none_of_no_timer s (no_timer_of_inactive h ha).2 t ok cb
        have hex : exec s (.fire t ok cb) = s := by simp [exec, hnone]
        rw [hex]
        exact ⟨rfl, ha, h⟩
    obtain ⟨h1, h2, h3⟩ := hstep
    obtain ⟨i1, i2, i3⟩ := ih (exec s a) h3 h2 hrest
    exact ⟨i1.trans h1, i2, i3⟩

/-- C5: in every reachable state, after `fake_deactivate` the active flag is
clear and no timer is held, so no firing of a timer is enabled, and whatever
steps follow, as long as none of them is a `fake_activate` whose timer is
scheduled, the log of notifications stays as it was and no timer is held.  The
same holds when `fake_deactivate` is called from inside the notification
callback of a firing (after any calls `pre`, followed by calls `post` without a
successful activation): the timer for the following token, armed before the
callback is invoked, is cancelled, and the firing delivers that one
notification only. -/
theorem fake_deactivate_silences (s : Sys) (hr : Reachable s) :
    ((fake_deactivate s).fake.active = false ∧
      (fake_deactivate s).fake.toktmr = none ∧
      (fake_deactivate s).ml.timers = [] ∧
      (fake_deactivate s).log = s.log ∧
      (∀ t ok cb, step (fake_deactivate s) (.fire t ok cb) = none) ∧
      ∀ as : List Action, (∀ a ∈ as, a ≠ .call (.activate true)) →
        (execs (fake_deactivate s) as).log = s.log ∧
        (execs (fake_deactivate s) as).ml.timers = []) ∧
    (∀ t ok pre post s2, (∀ c ∈ post, c ≠ Call.activate true) →
      step s (.fire t ok (pre ++ Call.deactivate :: post)) = some s2 → s2.log ≠ s.log →
      s2.fake.active = false ∧ s2.ml.timers = [] ∧
      s2.log.length = s.log.length + 1 ∧
      (∀ t1 ok1 cb1, step s2 (.fire t1 ok1 cb1) = none) ∧
      ∀ as : List Action, (∀ a ∈ as, a ≠ .call (.activate true)) →
        (execs s2 as).log = s2.log ∧ (execs s2 as).ml.timers = []) := by
  have hI := Inv_of_Reachable hr
  have key : ∀ u : Sys, Inv u → u.fake.active = false →
      u.ml.timers = [] ∧ (∀ t ok cb, step u (.fire t ok cb) = none) ∧
      ∀ as : List Action, (∀ a ∈ as, a ≠ .call (.activate true)) →
        (execs u as).log = u.log ∧ (execs u as).ml.timers = [] := by
    intro u hu ha
    have hnt := (no_timer_of_inactive hu ha).2
    refine ⟨hnt, step_fire_none_of_no_timer u hnt, fun as hc => ?_⟩
    obtain ⟨e1, e2, e3⟩ := execs_inactive u hu ha as hc
    exact ⟨e1, (no_timer_of_inactive e3 e2).2⟩
  constructor
  · have hId := Inv_fake_deactivate s hI
    have hoff := fake_deactivate_active s
    obtain ⟨k1, k2, k3⟩ := key _ hId hoff
    refine ⟨hoff, (no_timer_of_inactive hId hoff).1, k1, fake_deactivate_log s, k2, ?_⟩
    intro as hc
    have := k3 as hc
    rw [fake_deactivate_log] at this
    exact this
  · intro t ok pre post s2 hpost hstep hlog
    by_cases ht : t ∈ s.ml.timers
    · simp only [step, ht, if_true] at hstep
      rcases push_token_cb_cases s hI t ht ok with ⟨_, s1, h1, _, hl1, _⟩ | ⟨_, s3, text, h3, hI3, _, hl3, _⟩
      · rw [h1] at hstep
        cases hstep
        exact absurd hl1 hlog
      · rw [h3, do_calls_append, do_calls_cons] at hstep
        cases hstep
        have hIpre := Inv_do_calls s3 pre hI3
        have hId := Inv_fake_deactivate _ hIpre
        have hoff := fake_deactivate_active (do_calls s3 pre)
        have hIpost := Inv_do_calls _ post hId
        have hoffpost := do_calls_inactive _ hoff post hpost
        obtain ⟨k1, k2, k3⟩ := key _ hIpost hoffpost
        refine ⟨hoffpost, k1, ?_, k2, k3⟩
        rw [do_calls_log]
        show (fake_deactivate (do_calls s3 pre)).log.length = _
        rw [fake_deactivate_log, do_calls_log, hl3]
        simp
    · simp [step, ht] at hstep

theorem fake_deactivate_silences_witness :
    Reachable after_hal ∧ after_hal.ml.timers.length = 1 ∧
    (fake_deactivate after_hal).ml.timers = [] ∧
    (execs (fake_deactivate after_hal)
      [.call (.activate false), .fire ⟨1, 1000⟩ true [], .call (.flush 0 1)]).log =
      after_hal.log ∧
    step armed0 (.fire ⟨0, 1000⟩ true [.deactivate]) = some deactivated_in_callback ∧
    deactivated_in_callback.log.length = 1 ∧
    deactivated_in_callback.ml.timers = [] :=
  have hstep : step armed0 (.fire ⟨0, 1000⟩ true ([] ++ Call.deactivate :: [])) =
      some deactivated_in_callback := by
    norm_num [deactivated_in_callback, exec, step, armed0, fake_activate, fake_deactivate, init,
      arm_token_timer, mrp_add_timer, mrp_del_timer, tokens, push_token_cb, notify, do_calls,
      do_call, to_uint32, delay_msecs]
  have hlen : deactivated_in_callback.log.length = 1 := by
    norm_num [deactivated_in_callback, exec, step, armed0, fake_activate, fake_deactivate, init,
      arm_token_timer, mrp_add_timer, mrp_del_timer, tokens, push_token_cb, notify, do_calls,
      do_call, to_uint32, delay_msecs]
  ⟨Reachable_after_hal, by decide,
    (fake_deactivate_silences after_hal Reachable_after_hal).1.2.2.1,
    ((fake_deactivate_silences after_hal Reachable_after_hal).1.2.2.2.2.2 _ (by decide)).1,
    hstep, hlen,
    ((fake_deactivate_silences armed0 Reachable_armed0).2 ⟨0, 1000⟩ true [] [] _
      (by simp) hstep (by intro h; rw [h] at hlen; exact absurd hlen (by decide))).2.1⟩

/-! ## Flush, rescan and sample duplication -/

/-- C6: for 32-bit offsets `start` and `end_` and every backend state,
`fake_sampledup` (its allocation succeeding) returns a buffer of exactly two
32-bit words holding `start` and `end_`, and leaves the state as it is; the
buffer is the same in every state, and a second call with the same range on the
state the first call leaves returns the same buffer. -/
theorem fake_sampledup_snapshot (start end_ : Nat) (hs : start < 2 ^ 32) (he : end_ < 2 ^ 32)
    (s : Sys) :
    fake_sampledup true start end_ s = some ([start, end_], s) ∧
    (∀ s2 : Sys, (fake_sampledup true start end_ s2).map Prod.fst = some [start, end_]) ∧
    ((fake_sampledup true start end_ s).bind
      (fun r => (fake_sampledup true start end_ r.2).map Prod.fst)) = some [start, end_] := by
  have h : ∀ u : Sys, fake_sampledup true start end_ u = some ([start, end_], u) := by
    intro u
    simp [fake_sampledup, mrp_allocz, List.replicate]
    exact ⟨hs, he⟩
  refine ⟨h s, fun s2 => by rw [h s2]; rfl, ?_⟩
  rw [h s]
  simp [h]

theorem fake_sampledup_snapshot_witness :
    (10 : Nat) < 2 ^ 32 ∧ (20 : Nat) < 2 ^ 32 ∧
    fake_sampledup true 10 20 after_hal = some ([10, 20], after_hal) :=
  ⟨by decide, by decide, (fake_sampledup_snapshot 10 20 (by decide) (by decide) after_hal).1⟩

/-- C7, as the code has it: `fake_flush` with the flush-all sentinel as end
returns success and changes nothing, and a following `fake_sampledup` of any
range `[a, b)` returns what it returns without the flush: a buffer of two words
holding `a` and `b` as 32-bit values, never `NULL` and never an empty buffer. -/
theorem fake_flush_all_then_sampledup (start a b : Nat) (s : Sys) :
    (fake_flush start (to_uint32 SRS_SREC_FLUSH_ALL) s).1 = true ∧
    (fake_flush start (to_uint32 SRS_SREC_FLUSH_ALL) s).2 = s ∧
    fake_sampledup true a b (fake_flush start (to_uint32 SRS_SREC_FLUSH_ALL) s).2 =
      fake_sampledup true a b s ∧
    (fake_sampledup true a b (fake_flush start (to_uint32 SRS_SREC_FLUSH_ALL) s).2).map Prod.fst =
      some [a % 2 ^ 32, b % 2 ^ 32] := by
  refine ⟨rfl, rfl, rfl, ?_⟩
  simp [fake_sampledup, mrp_allocz, fake_flush, List.replicate]

/-- C7 fails as stated: after flushing everything, duplicating `[10, 20)`
returns the two-word buffer `10, 20`, which is neither `NULL` nor empty. -/
theorem fake_flush_all_then_sampledup_counterexample :
    to_uint32 SRS_SREC_FLUSH_ALL = 4294967295 ∧
    (fake_sampledup true 10 20 (fake_flush 0 (to_uint32 SRS_SREC_FLUSH_ALL) armed0).2).map
      Prod.fst = some [10, 20] ∧
    ¬ ((fake_sampledup true 10 20 (fake_flush 0 (to_uint32 SRS_SREC_FLUSH_ALL) armed0).2).map
        Prod.fst = none ∨
      (fake_sampledup true 10 20 (fake_flush 0 (to_uint32 SRS_SREC_FLUSH_ALL) armed0).2).map
        Prod.fst = some []) := by
  decide

/-- C9: for every backend state and every pair of offsets, whatever their
order and also with the flush-all sentinel as end, `fake_flush` and
`fake_rescan` return success and leave the whole state as it is (active flag,
cursor, timer, notification target, main loop, log); hence every sequence of
steps that follows runs as it would have without the call. -/
theorem fake_flush_rescan_frame (start end_ : Nat) (s : Sys) :
    fake_flush start end_ s = (true, s) ∧
    fake_rescan start end_ s = (true, s) ∧
    (∀ as : List Action, execs (exec s (.call (.flush start end_))) as = execs s as) ∧
    (∀ as : List Action, execs (exec s (.call (.rescan start end_))) as = execs s as) :=
  ⟨rfl, rfl, fun _ => rfl, fun _ => rfl⟩

/-! ## The end of the script -/

/-- C10, as the code has it: in a reachable state whose cursor is at the
end-of-script entry, the firing of the pending timer delivers nothing, resets
the cursor to 0 and leaves no timer held, so no firing is enabled; the active
flag stays set.  A following `fake_activate` alone therefore returns success
and changes nothing (no timer is scheduled), while `fake_deactivate` followed
by `fake_activate` with the timer scheduled holds one timer again, whose firing
delivers hal with start 0. -/
theorem fake_script_end (s : Sys) (hr : Reachable s) (t : mrp_timer_t) (ht : t ∈ s.ml.timers)
    (hidx : s.fake.tokidx = 6) (ok : Bool) (cb : List Call) :
    ∃ s1, step s (.fire t ok cb) = some s1 ∧
      s1.log = s.log ∧ s1.fake.tokidx = 0 ∧ s1.ml.timers = [] ∧ s1.fake.toktmr = none ∧
      s1.fake.active = true ∧
      (∀ t1 ok1 cb1, step s1 (.fire t1 ok1 cb1) = none) ∧
      (∀ ok2, fake_activate ok2 s1 = (true, s1)) ∧
      (fake_activate true (fake_deactivate s1)).2.fake.tokidx = 0 ∧
      ∃ t2, (fake_activate true (fake_deactivate s1)).2.ml.timers = [t2] ∧
        ∀ ok3 cb3, ∃ s3,
          step (fake_activate true (fake_deactivate s1)).2 (.fire t2 ok3 cb3) = some s3 ∧
          s3.log =
            s.log ++ [⟨[⟨"hal", 1, 0, 1, false⟩], 1, s.fake.notify, s.fake.notify_data⟩] := by
  have hI := Inv_of_Reachable hr
  rcases push_token_cb_cases s hI t ht ok with ⟨_, s1, h1, hI1, hl1, hc1, ht1, ha1⟩ | ⟨hlt, _⟩
  · have hstep : step s (.fire t ok cb) = some s1 := by simp [step, ht, h1]
    have hnone : s1.fake.toktmr = none := by
      have h := hI1.timers
      rw [ht1] at h
      cases hq : s1.fake.toktmr with
      | none => rfl
      | some q => rw [hq] at h; cases h
    have hnd : s1.fake.notify = s.fake.notify ∧ s1.fake.notify_data = s.fake.notify_data := by
      have h := h1 []
      unfold push_token_cb at h
      have htok := (hI.armed t (toktmr_of_mem hI ht)).2.1
      rw [htok, hidx] at h
      simp only [tokens, List.get?] at h
      cases h
      exact ⟨rfl, rfl⟩
    have hre := fake_activate_restarts (fake_deactivate s1) (Inv_fake_deactivate s1 hI1)
      (fake_deactivate_active s1)
    rw [fake_deactivate_log, (fake_deactivate_notify s1).1, (fake_deactivate_notify s1).2,
      hl1, hnd.1, hnd.2] at hre
    refine ⟨s1, hstep, hl1, hc1, ht1, hnone, ha1, step_fire_none_of_no_timer s1 ht1, ?_,
      hre.2.1, hre.2.2.2⟩
    intro ok2
    simp [fake_activate, ha1]
  · omega

theorem fake_script_end_witness :
    Reachable before_end ∧ before_end.ml.timers = [⟨6, 1000⟩] ∧ before_end.fake.tokidx = 6 ∧
    before_end.log.length = 6 ∧
    ∃ s1, step before_end (.fire ⟨6, 1000⟩ true []) = some s1 ∧ s1.log = before_end.log :=
  have hm : before_end.ml.timers = [⟨6, 1000⟩] := by
    norm_num [before_end, armed0, run_loop, fake_activate, init, arm_token_timer, mrp_add_timer,
      mrp_del_timer, tokens, push_token_cb, notify, do_calls, to_uint32, delay_msecs]
  have h := fake_script_end before_end Reachable_before_end ⟨6, 1000⟩ (by rw [hm]; simp)
    (by decide) true []
  ⟨Reachable_before_end, hm, by decide, by decide, h.imp fun _ hs => ⟨hs.1, hs.2.1⟩⟩

/-- C10 fails as stated: after the six tokens and the end of the script, the
active flag is still set, and a following `fake_activate` alone returns success
without scheduling a timer, so nothing is delivered until a `fake_deactivate`
comes first. -/
theorem fake_script_end_counterexample :
    exhausted.log.length = 6 ∧ exhausted.fake.tokidx = 0 ∧ exhausted.ml.timers = [] ∧
    exhausted.fake.active = true ∧
    (fake_activate true exhausted).1 = true ∧
    (fake_activate true exhausted).2.ml.timers = [] ∧
    (fake_activate true exhausted).2.fake.toktmr = none ∧
    (run_loop 7 (fake_activate true exhausted).2).map (fun s => s.log.length) = some 6 := by
  decide

end Fake

namespace Sphinx

/-! ## Decoder selection -/

/-- C8: for every decoder set and every decoder name for which `check_decoder`
returns false, `select_decoder` returns failure and `active_decoder` reports
the same decoder after the call as before it. -/
theorem select_decoder_unavailable (ctx : context_t) (decoder : String)
    (h : check_decoder decoder ctx = false) :
    (select_decoder decoder ctx).1 = false ∧
    active_decoder (select_decoder decoder ctx).2 = active_decoder ctx := by
  have hc : decoder_set_contains ctx decoder = false := h
  simp [select_decoder, decoder_set_use, hc]

theorem select_decoder_unavailable_witness :
    check_decoder "missing" ⟨⟨["default", "music"], "default"⟩, none⟩ = false ∧
    (select_decoder "missing" ⟨⟨["default", "music"], "default"⟩, none⟩).1 = false ∧
    active_decoder (select_decoder "missing" ⟨⟨["default", "music"], "default"⟩, none⟩).2 = "default" :=
  ⟨by decide,
    (select_decoder_unavailable ⟨⟨["default", "music"], "default"⟩, none⟩ "missing" (by decide)).1,
    (select_decoder_unavailable ⟨⟨["default", "music"], "default"⟩, none⟩ "missing" (by decide)).2⟩

end Sphinx

namespace Fake

/-! ## Timer delays and the cursor -/

/-- C11, as the code has it: delays are whole milliseconds, 1000 times the
configured seconds, truncated (1000, 500, 300, 200, 500, 1000 for the six
tokens).  `fake_activate` on an inactive backend schedules its timer with the
delay of the first script entry, 1000 ms.  A firing that emits script entry `i`
arms the new timer, before the callback is invoked, with the delay of that same
entry `i`, its time till the next token, not with the delay of entry `i + 1`. -/
theorem fake_timer_delays (s : Sys) (hr : Reachable s) :
    tokens.map (fun e => delay_msecs e.next) = [1000, 500, 300, 200, 500, 1000, 0] ∧
    (s.fake.active = false →
      (tokens.head?).map (fun e => delay_msecs e.next) = some 1000 ∧
      (fake_activate true s).2.fake.toktmr = some ⟨s.ml.next_id, 1000⟩ ∧
      (fake_activate true s).2.ml.timers = [⟨s.ml.next_id, 1000⟩]) ∧
    (∀ t e text ok cb, t ∈ s.ml.timers → tokens.get? s.fake.tokidx = some e →
      e.token = some text →
      ∃ s3, step s (.fire t ok cb) = some (do_calls s3 cb) ∧
        s3.log.map (fun n => n.toks.map (fun k => k.token)) =
          s.log.map (fun n => n.toks.map (fun k => k.token)) ++ [[text]] ∧
        s3.fake.toktmr = (if ok then some ⟨s.ml.next_id, delay_msecs e.next⟩ else none) ∧
        s3.ml.timers = (if ok then [⟨s.ml.next_id, delay_msecs e.next⟩] else [])) := by
  have hI := Inv_of_Reachable hr
  have h1000 : delay_msecs 1 = 1000 := by norm_num [delay_msecs]
  refine ⟨delay_msecs_tokens, ?_, ?_⟩
  · intro ha
    obtain ⟨hn, hl⟩ := no_timer_of_inactive hI ha
    refine ⟨by simp [tokens, h1000], ?_, ?_⟩
    · simp [fake_activate, ha, arm_token_timer, mrp_add_timer, mrp_del_timer, hn, tokens, h1000]
    · simp [fake_activate, ha, arm_token_timer, mrp_add_timer, mrp_del_timer, hn, hl, tokens,
        h1000]
  · intro t e text ok cb ht he htext
    have htm := toktmr_of_mem hI ht
    obtain ⟨_, htok, _⟩ := hI.armed t htm
    have hl : s.ml.timers = [t] := by rw [hI.timers, htm]; rfl
    have he2 : s.fake.tokens.get? s.fake.tokidx = some e := by rw [htok]; exact he
    have hp : ∀ x : Sys, x = (arm_token_timer ok e.next
          { fake := { s.fake with tokidx := s.fake.tokidx + 1, toktmr := none }
            ml := mrp_del_timer s.ml (some t)
            log := s.log }).2 →
        step s (.fire t ok cb) = some (do_calls
          { x with log := x.log ++ [⟨[⟨text, 1, to_uint32 s.fake.tokidx,
            (to_uint32 s.fake.tokidx + 1) % 2 ^ 32, false⟩], 1, x.fake.notify,
            x.fake.notify_data⟩] } cb) := by
      intro x hx
      subst hx
      simp only [step, ht, if_true, push_token_cb, he2, htext, notify]
    refine ⟨_, hp _ rfl, ?_, ?_, ?_⟩
    · cases ok <;> simp [arm_token_timer, mrp_add_timer]
    · cases ok <;> simp [arm_token_timer, mrp_add_timer, mrp_del_timer]
    · cases ok <;> simp [arm_token_timer, mrp_add_timer, mrp_del_timer, hl]

theorem fake_timer_delays_witness :
    Reachable armed0 ∧ armed0.ml.timers = [⟨0, 1000⟩] ∧
    tokens.get? armed0.fake.tokidx = some ⟨some "hal", 1⟩ ∧
    ∃ s3, step armed0 (.fire ⟨0, 1000⟩ true []) = some (do_calls s3 []) ∧
      s3.ml.timers = [⟨1, delay_msecs 1⟩] :=
  have hm : armed0.ml.timers = [⟨0, 1000⟩] := by
    norm_num [armed0, fake_activate, init, arm_token_timer, mrp_add_timer, mrp_del_timer,
      tokens, delay_msecs]
  have h := (fake_timer_delays armed0 Reachable_armed0).2.2 ⟨0, 1000⟩ ⟨some "hal", 1⟩ "hal"
    true [] (by rw [hm]; simp) rfl rfl
  ⟨Reachable_armed0, hm, rfl, h.imp fun _ hs => ⟨hs.1, hs.2.2.2⟩⟩

/-- C11 fails as stated: the firing that emits hal, script entry 0, arms the
new timer with 1000 ms, the delay of entry 0, and not with 500 ms, the delay of
the following entry 1. -/
theorem fake_timer_delays_counterexample :
    after_hal.log.map (fun n => n.toks.map (fun k => k.token)) = [["hal"]] ∧
    (tokens.get? 0).map (fun e => delay_msecs e.next) = some 1000 ∧
    (tokens.get? 1).map (fun e => delay_msecs e.next) = some 500 ∧
    after_hal.ml.timers = [⟨1, 1000⟩] ∧
    ¬ (after_hal.ml.timers.map (fun u => u.msecs) = [500]) := by
  have hm : after_hal.ml.timers = [⟨1, 1000⟩] := by
    norm_num [after_hal, armed0, run_loop, fake_activate, init, arm_token_timer, mrp_add_timer,
      mrp_del_timer, tokens, push_token_cb, notify, do_calls, to_uint32, delay_msecs]
  refine ⟨by decide, by norm_num [tokens, delay_msecs], by norm_num [tokens, delay_msecs], hm, ?_⟩
  rw [hm]
  decide

/-- C12: in every reachable state a timer is pending (held by the main loop,
or pointed to by the backend) only if the active flag is set, and whenever a
timer is pending the backend reads the static script and its cursor is at most
6, inside the seven-entry script array whose last entry is the end sentinel, so
the firing of a pending timer always reads a script entry and yields a next
state. -/
theorem fake_cursor_in_script (s : Sys) (hr : Reachable s) :
    tokens.length = 7 ∧ (tokens.get? 6).map (fun e => e.token) = some none ∧
    (∀ t, s.fake.toktmr = some t → s.fake.active = true) ∧
    (∀ t ∈ s.ml.timers,
      s.fake.active = true ∧ s.fake.tokidx ≤ 6 ∧ s.fake.tokens = tokens ∧
      s.fake.tokidx < s.fake.tokens.length ∧
      (∃ e, s.fake.tokens.get? s.fake.tokidx = some e) ∧
      ∀ ok cb, ∃ s1, step s (.fire t ok cb) = some s1) := by
  have hI := Inv_of_Reachable hr
  refine ⟨rfl, rfl, fun t ht => (hI.armed t ht).1, ?_⟩
  intro t ht
  obtain ⟨ha, htok, hidx⟩ := hI.armed t (toktmr_of_mem hI ht)
  have hlen : s.fake.tokidx < s.fake.tokens.length := by
    rw [htok]
    exact Nat.lt_succ_of_le hidx
  refine ⟨ha, hidx, htok, hlen, ⟨s.fake.tokens.get ⟨_, hlen⟩, List.get?_eq_get hlen⟩, ?_⟩
  intro ok cb
  rcases push_token_cb_cases s hI t ht ok with ⟨_, s1, h1, _⟩ | ⟨_, s3, _, h3, _⟩
  · exact ⟨s1, by simp [step, ht, h1]⟩
  · exact ⟨do_calls s3 cb, by simp [step, ht, h3]⟩

theorem fake_cursor_in_script_witness :
    Reachable before_end ∧ before_end.fake.tokidx = 6 ∧ before_end.ml.timers.length = 1 ∧
    ∀ t ∈ before_end.ml.timers,
      before_end.fake.active = true ∧ before_end.fake.tokidx ≤ 6 ∧
      before_end.fake.tokens = tokens ∧
      before_end.fake.tokidx < before_end.fake.tokens.length ∧
      (∃ e, before_end.fake.tokens.get? before_end.fake.tokidx = some e) ∧
      ∀ ok cb, ∃ s1, step before_end (.fire t ok cb) = some s1 :=
  ⟨Reachable_before_end, by decide, by decide,
    (fake_cursor_in_script before_end Reachable_before_end).2.2.2⟩

end Fake

namespace Sphinx

/-! ## The utterance handler -/

/-- C13: when the plugin and a notification callback are set,
`plugin_utterance_handler` invokes the callback exactly once, with the
utterance and the registered data, and returns exactly the value the callback
returns; when the plugin or the callback is missing it invokes nothing and
returns -1, which is the value of `SRS_SREC_FLUSH_ALL`. -/
theorem plugin_utterance_handler_result (ctx : context_t) (utt : srs_srec_utterance_t) :
    (∀ pl notify, ctx.plugin = some pl → pl.callback = some notify →
      plugin_utterance_handler ctx utt = (notify utt pl.data, [(utt, pl.data)])) ∧
    ((ctx.plugin = none ∨ ∃ pl, ctx.plugin = some pl ∧ pl.callback = none) →
      plugin_utterance_handler ctx utt = (-1, []) ∧
      (plugin_utterance_handler ctx utt).1 = Fake.SRS_SREC_FLUSH_ALL) := by
  constructor
  · intro pl notify hp hc
    simp [plugin_utterance_handler, hp, hc]
  · rintro (hp | ⟨pl, hp, hc⟩)
    · simp [plugin_utterance_handler, hp, Fake.SRS_SREC_FLUSH_ALL]
    · simp [plugin_utterance_handler, hp, hc, Fake.SRS_SREC_FLUSH_ALL]

theorem plugin_utterance_handler_result_witness :
    plugin_utterance_handler ctx_registered utt_hello = (16005, [(utt_hello, 5)]) ∧
    plugin_utterance_handler ctx_no_callback utt_hello = (-1, []) ∧
    (plugin_utterance_handler ctx_no_callback utt_hello).1 = Fake.SRS_SREC_FLUSH_ALL :=
  ⟨(plugin_utterance_handler_result ctx_registered utt_hello).1 _ _ rfl rfl,
    ((plugin_utterance_handler_result ctx_no_callback utt_hello).2
      (Or.inr ⟨_, rfl, rfl⟩)).1,
    ((plugin_utterance_handler_result ctx_no_callback utt_hello).2
      (Or.inr ⟨_, rfl, rfl⟩)).2⟩

end Sphinx
